import Mathlib

/-!
Verification development for the Dashboard Generator repository
(`Tools.py` and `Shopfully_Tool.py`): a mail-merge tool that fills a slide
template from spreadsheet rows.  The Python source is shallowly embedded:
numeric cell values are rationals, Python `round(x, 1)` is round-half-to-even
at one decimal (computed on numerator/denominator so that the kernel can
evaluate it), strings are Lean strings, pandas `iloc` slicing is modelled
with Python slice normalisation (negative indices wrap), and the formatting
pipeline (`format_cell_value`), row selection, filename building
(`get_filename_from_selection`) and placeholder substitution
(`update_text_of_textbox`, `process_row`, `process_files`) are translated
function by function.
-/

/-! ### Decimal digit strings (model of Python `str` on numbers) -/

/-- The character for a decimal digit `d` (`0 ≤ d ≤ 9`), as `chr(48 + d)`. -/
def digitChar (d : Nat) : Char := Char.ofNat (48 + d)

/-- Decimal digits of `n`, most significant first, with explicit fuel so
that the kernel can evaluate it (`n + 1` units always suffice). -/
def natDigitsAux : Nat → Nat → List Char
  | 0, _ => []
  | fuel + 1, n =>
    if n < 10 then [digitChar n]
    else natDigitsAux fuel (n / 10) ++ [digitChar (n % 10)]

/-- Decimal digit list of a natural number, most significant first
(model of Python `str` on a nonnegative integer). -/
def natDigits (n : Nat) : List Char := natDigitsAux (n + 1) n

/-- Decimal digit list of an integer, with a leading minus sign when negative
(model of Python `str` on an `int`). -/
def intDigits (k : Int) : List Char :=
  (if k < 0 then ['-'] else []) ++ natDigits k.natAbs

/-- Insert `','` after every group of three characters of a reversed digit
list; helper for Python's `,` thousands grouping in format strings. -/
def group3 : List Char → List Char
  | a :: b :: c :: d :: rest => a :: b :: c :: ',' :: group3 (d :: rest)
  | l => l

/-- Thousands grouping of a digit list (most significant first), as produced
by Python's `f"{x:,.1f}"` on the integer part. -/
def groupDigits (l : List Char) : List Char :=
  (group3 l.reverse).reverse

/-- Strip all trailing occurrences of `c` (model of Python `str.rstrip(c)`). -/
def rstripL (c : Char) (l : List Char) : List Char :=
  (l.reverse.dropWhile (fun a => a = c)).reverse

/-- Whitespace test used by Python `str.strip()` (ASCII whitespace). -/
def isPySpace (c : Char) : Bool :=
  c = ' ' || c = '\t' || c = '\n' || c = '\r'

/-- Strip leading and trailing whitespace (model of Python `str.strip()`). -/
def pyStripL (l : List Char) : List Char :=
  ((l.dropWhile isPySpace).reverse.dropWhile isPySpace).reverse

/-- Split a character list at every `','` (model of Python `str.split(',')`;
an empty input yields one empty field). -/
def splitComma : List Char → List (List Char)
  | [] => [[]]
  | c :: rest =>
    match splitComma rest with
    | [] => [[c]]
    | h :: t => if c = ',' then [] :: h :: t else (c :: h) :: t

/-! ### Python rounding (`round(x, 1)`): round half to even

Python's `round` rounds to the nearest representable value, ties to even.
On the rational model, `round(q, 1)` is the integer number of tenths
`roundHE 10 q` divided by ten.  `roundHE s q` computes the half-to-even
rounding of `s * q` using only integer arithmetic on the (reduced)
numerator and denominator, so that concrete instances evaluate in the
kernel; `roundHE_spec` below relates it to the floor-based description. -/

/-- Round `s * q` to the nearest integer, ties to the even integer,
computed on the numerator and denominator of `q`. -/
def roundHE (s : ℤ) (q : ℚ) : ℤ :=
  let n := s * q.num
  let d : ℤ := (q.den : ℤ)
  let f := n / d
  let r2 := 2 * (n % d)
  if r2 < d then f
  else if d < r2 then f + 1
  else if f % 2 = 0 then f else f + 1

/-- Python `round(q, 1)` as a rational: the tenths integer over ten.
Used on the specification side of the statements. -/
def pyRound1 (q : ℚ) : ℚ :=
  (roundHE 10 q : ℚ) / 10

/-- Character list of Python `f"{t/10:.1f}"` where `t` is the tenths
integer of an already-rounded one-decimal value; when `grouped` is true the
integer part gets `,` thousands separators, modelling `f"{x:,.1f}"`. -/
def fixed1L (grouped : Bool) (t : ℤ) : List Char :=
  (if t < 0 then ['-'] else []) ++
    (if grouped then groupDigits (natDigits (t.natAbs / 10))
     else natDigits (t.natAbs / 10)) ++
    '.' :: [digitChar (t.natAbs % 10)]

/-! ### `format_cell_value` (both files) -/

/-- Keep only the characters the regex `[^\d.,%€$£]` / `[^\d.%€$£]` retains
when cleaning an Excel number format (`Tools.py` keeps `','`, controlled by
`keepComma`). -/
def cleanedL (keepComma : Bool) (fmt : List Char) : List Char :=
  fmt.filter (fun c =>
    c.isDigit || c = '.' || (keepComma && c = ',') || c = '%' ||
      c = '€' || c = '$' || c = '£')

/-- First currency glyph of `["€", "$", "£"]` occurring in the cleaned
format, or the empty string (model of the `next(...)` generator in
`format_cell_value`). -/
def curSymL (cf : List Char) : List Char :=
  if '€' ∈ cf then ['€'] else if '$' ∈ cf then ['$'] else if '£' ∈ cf then ['£'] else []

/-- The plain-number branch of `format_cell_value`:
`f"{round(v, 1):.1f}".rstrip('0').rstrip('.')` (grouped variant for
`Tools.py`). -/
def plainL (grouped : Bool) (q : ℚ) : List Char :=
  rstripL '.' (rstripL '0' (fixed1L grouped (roundHE 10 q)))

/-- A spreadsheet cell value as seen by `format_cell_value`: `None`, a
number (`int`/`float`), a `datetime`, or a string. -/
inductive CellValue where
  | none : CellValue
  | num (q : ℚ) : CellValue
  | date (day month year : Nat) : CellValue
  | str (s : String) : CellValue
deriving DecidableEq, Repr

/-- Two-digit zero-padded rendering (`%d` / `%m` of `strftime`). -/
def pad2 (n : Nat) : List Char :=
  if n < 10 then '0' :: natDigits n else natDigits n

namespace Tools

/-- `Tools.py` `format_cell_value`: numeric cells are formatted from the
cell's Excel number format (cleaned by `[^\d.,%€$£]`): currency glyph ⇒
`f"{round(v,1):,.1f}".rstrip('0').rstrip('.') + " <sym>"`; else `%` ⇒
`percentage = round(v*100, 1)` (tenths integer `roundHE 1000 v`) shown as
`f"{int(percentage)}%"` when `percentage.is_integer()` and as
`f"{percentage:.1f}%"` otherwise; else the plain grouped rendering; dates
as `%d-%m-%Y`; anything else via `str`. -/
def format_cell_value (value : CellValue) (number_format : String) : String :=
  match value with
  | .none => ""
  | .num v =>
    let cleaned_format := cleanedL true number_format.toList
    let currency_symbol := curSymL cleaned_format
    if currency_symbol ≠ [] then
      String.mk (plainL true v ++ ' ' :: currency_symbol)
    else if '%' ∈ cleaned_format then
      let percentage := roundHE 1000 v
      if percentage % 10 = 0 then String.mk (intDigits (percentage / 10) ++ ['%'])
      else String.mk (fixed1L false percentage ++ ['%'])
    else String.mk (plainL true v)
  | .date d m y => String.mk (pad2 d ++ '-' :: pad2 m ++ '-' :: natDigits y)
  | .str s => s

end Tools

namespace Shopfully

/-- `Shopfully_Tool.py` `format_cell_value`: as in `Tools.py` but the format
cleaning drops `','` and all numeric renderings use the ungrouped
`f"{x:.1f}"`.  The `cell_coordinate` argument is always supplied at the one
call site, so it is not modelled. -/
def format_cell_value (value : CellValue) (number_format : String) : String :=
  match value with
  | .none => ""
  | .num v =>
    let cleaned_format := cleanedL false number_format.toList
    let currency_symbol := curSymL cleaned_format
    if currency_symbol ≠ [] then
      String.mk (plainL false v ++ ' ' :: currency_symbol)
    else if '%' ∈ cleaned_format then
      let percentage := roundHE 1000 v
      if percentage % 10 = 0 then String.mk (intDigits (percentage / 10) ++ ['%'])
      else String.mk (fixed1L false percentage ++ ['%'])
    else String.mk (plainL false v)
  | .date d m y => String.mk (pad2 d ++ '-' :: pad2 m ++ '-' :: natDigits y)
  | .str s => s

end Shopfully

/-! ### pandas values, rows, selection -/

/-- A pandas cell value as held in a `DataFrame` row. -/
inductive PyValue where
  | int (n : ℤ) : PyValue
  | float (q : ℚ) : PyValue
  | str (s : String) : PyValue
deriving DecidableEq, Repr

/-- Fractional decimal digits of `n / d` (`n < d`), at most `fuel` digits
(long division; model of the fractional part of Python `str` on a float
whose value is a short terminating decimal). -/
def fracDigits (fuel : Nat) (n : Nat) (d : Nat) : List Char :=
  match fuel with
  | 0 => []
  | fuel + 1 =>
    if n = 0 then []
    else digitChar (10 * n / d) :: fracDigits fuel (10 * n % d) d

/-- Model of Python `str` on a float: integer part, `'.'`, fractional
digits (`".0"` for an integral float). -/
def floatRepr (q : ℚ) : String :=
  let na := q.num.natAbs
  let frac := fracDigits 17 (na % q.den) q.den
  String.mk ((if q.num < 0 then ['-'] else []) ++ natDigits (na / q.den) ++
    '.' :: (if frac = [] then ['0'] else frac))

/-- Python `str` on a pandas value (`astype(str)` / `str(row[col])`). -/
def pyStr : PyValue → String
  | .int n => String.mk (intDigits n)
  | .float q => floatRepr q
  | .str s => s

/-- A pandas value as passed into `format_cell_value` (runtime `isinstance`
dispatch: `int` and `float` both take the numeric branch). -/
def toCellValue : PyValue → CellValue
  | .int n => .num (n : ℚ)
  | .float q => .num q
  | .str s => .str s

/-- One data row: the pandas row (ordered column-name/value pairs) together
with the corresponding worksheet row as read by openpyxl
((cell value, number_format) per column). -/
structure Row where
  cells : List (String × PyValue)
  fmtCells : List (CellValue × String)
deriving DecidableEq, Repr

/-- String form of the first column (`df1.iloc[:, 0].astype(str)`). -/
def firstColStr (r : Row) : String :=
  match r.cells with
  | [] => ""
  | p :: _ => pyStr p.2

/-- Label lookup `row[col]` on a pandas row (`None` when absent, which is
what `col in row` guards against). -/
def rowLookup (r : Row) (col : String) : Option PyValue :=
  (r.cells.find? (fun p => p.1 == col)).map Prod.snd

/-- Python slice-bound normalisation for step 1: negative indices count
from the end, then the bound is clipped to `[0, n]`. -/
def pyBound (n : Nat) (i : ℤ) : Nat :=
  if i < 0 then ((n : ℤ) + i).toNat else min i.toNat n

/-- Python list slicing `l[a:b]` (step 1), as performed by `iloc[a:b]` on a
positionally-indexed frame. -/
def pySlice (l : List α) (a b : ℤ) : List α :=
  (l.take (pyBound l.length b)).drop (pyBound l.length a)

/-- `store_id` selection (both files): split the request at commas, strip
each identifier, keep rows whose first-column string form is in the list
(`df1[df1.iloc[:, 0].astype(str).isin(store_id_list)]`). -/
def selectByIds (t : List Row) (store_ids : String) : List Row :=
  let store_id_list := (splitComma store_ids.toList).map pyStripL
  t.filter (fun r => store_id_list.contains (firstColStr r).toList)

namespace Tools

/-- `Tools.py` row-range selection: `df1.iloc[start_row:end_row + 1]`. -/
def selectRows (t : List α) (start_row end_row : Nat) : List α :=
  pySlice t (start_row : ℤ) ((end_row : ℤ) + 1)

end Tools

namespace Shopfully

/-- `Shopfully_Tool.py` row-range selection:
`df1.iloc[start_row-2:end_row-1]`. -/
def selectRows (t : List α) (start_row end_row : Nat) : List α :=
  pySlice t ((start_row : ℤ) - 2) ((end_row : ℤ) - 1)

end Shopfully

/-! ### The template and placeholder substitution -/

/-- A shape's text frame: paragraphs, each a list of styled runs (only the
text of a run is modelled). -/
abbrev Shape := List (List String)

/-- A slide: its text-bearing shapes. -/
abbrev Slide := List Shape

/-- A presentation: slides of shapes (the parsed form of the template). -/
abbrev Presentation := List Slide

/-- `shape.text` in python-pptx: paragraph texts (runs concatenated)
joined with newlines. -/
def shapeText (sh : Shape) : String :=
  String.intercalate "\n" (sh.map (fun p => String.join p))

/-- Replace every (left-to-right, non-overlapping) occurrence of the
three-character token `{X}` by `repl`, scanning one character at a time:
the model of `re.sub(rf"\{{{X}\}}", repl, run)`. -/
def replaceToken (X : Char) (repl : List Char) : List Char → List Char
  | [] => []
  | [a] => [a]
  | [a, b] => [a, b]
  | a :: b :: c :: rest =>
    if a = '{' ∧ b = X ∧ c = '}' then repl ++ replaceToken X repl rest
    else a :: replaceToken X repl (b :: c :: rest)

/-- Does the token `{X}` occur in the character list
(model of `re.search(rf"\{{{X}\}}", s)`)? -/
def tokenIn (X : Char) : List Char → Bool
  | a :: b :: c :: rest => decide (a = '{' ∧ b = X ∧ c = '}') || tokenIn X (b :: c :: rest)
  | _ => false

/-- Core of `update_text_of_textbox` (both files): for every shape whose
(nonempty) full text contains the token `{column_letter}`, replace the
token in every run of every paragraph; other shapes are untouched. -/
def updateTextboxes (presentation : Presentation) (column_letter : Char) (txt : String) :
    Presentation :=
  presentation.map (fun slide =>
    slide.map (fun shape =>
      if (shapeText shape).toList ≠ [] ∧ tokenIn column_letter (shapeText shape).toList then
        shape.map (fun paragraph =>
          paragraph.map (fun run =>
            String.mk (replaceToken column_letter txt.toList run.toList)))
      else shape))

namespace Tools

/-- `Tools.py` `update_text_of_textbox(presentation, column_letter,
new_text)`: the text passed in is already formatted. -/
def update_text_of_textbox (presentation : Presentation) (column_letter : Char)
    (new_text : String) : Presentation :=
  updateTextboxes presentation column_letter new_text

/-- `Tools.py` `get_filename_from_selection`: plain `str(row[col])` joined
with underscores over the selected columns present in the row. -/
def get_filename_from_selection (row : Row) (selected_columns : List String) : String :=
  String.intercalate "_"
    (selected_columns.filterMap (fun col => (rowLookup row col).map pyStr))

end Tools

namespace Shopfully

/-- `Shopfully_Tool.py` `update_text_of_textbox`: formats the raw pandas
value through `format_cell_value` with the worksheet cell's number format,
then substitutes like `Tools.py`. -/
def update_text_of_textbox (presentation : Presentation) (column_letter : Char)
    (new_text : CellValue) (number_format : String) : Presentation :=
  let formatted_text := format_cell_value new_text number_format
  updateTextboxes presentation column_letter formatted_text

/-- `Shopfully_Tool.py` `get_filename_from_selection`: like `Tools.py` but
a float with no fractional part renders as `str(int(v))`. -/
def get_filename_from_selection (row : Row) (selected_columns : List String) : String :=
  String.intercalate "_"
    (selected_columns.filterMap (fun col => (rowLookup row col).map (fun v =>
      match v with
      | .float q => if q.den = 1 then String.mk (intDigits q.num) else floatRepr q
      | _ => pyStr v)))

end Shopfully

/-! ### The batch drivers (`process_row`, `process_files`) -/

/-- Excel column letter for a zero-based column index: `chr(65 + idx)`. -/
def columnLetter (idx : Nat) : Char := Char.ofNat (65 + idx)

namespace Tools

/-- `Tools.py` `process_row`: re-instantiates the template from the stored
file (`pptx.Presentation(presentation_path)`; the file's parsed content is
the `presentation_path` argument here, immutable during the run), then for
each column of the pandas row reads the worksheet cell
`ws[f"{letter}{index + 2}"]` — note `index` is the sequential batch counter
`i`, not the row's original position — formats it and substitutes, and
names the output from the pandas row. -/
def process_row (presentation_path : Presentation) (row : Row)
    (wsTable : List (List (CellValue × String))) (index : Nat)
    (selected_columns : List String) : String × Presentation :=
  let presentation := (row.cells.enum).foldl (fun pres p =>
    let column_letter := columnLetter p.1
    let excel_cell := (((wsTable.get? index).getD []).get? p.1).getD (CellValue.none, "General")
    let formatted_text := format_cell_value excel_cell.1 excel_cell.2
    update_text_of_textbox pres column_letter formatted_text) presentation_path
  (get_filename_from_selection row selected_columns ++ ".pptx", presentation)

/-- The `df_selected` computed by `Tools.py` `process_files` from the
search option. -/
def df_selected (table : List Row) (search_option : String)
    (start_row end_row : Nat) (store_ids : String) : List Row :=
  if search_option = "rows" then selectRows table start_row end_row
  else if search_option = "store_id" then selectByIds table store_ids
  else []

/-- `Tools.py` `process_files`: select rows, report an error when nothing
matched (no output is produced), otherwise process each selected row with
the sequential counter `i` from `enumerate` and collect the written files. -/
def process_files (ppt_template : Presentation) (table : List Row)
    (search_option : String) (start_row end_row : Nat) (store_ids : String)
    (selected_columns : List String) : Except String (List (String × Presentation)) :=
  let sel := df_selected table search_option start_row end_row store_ids
  if sel.length = 0 then Except.error "⚠️ No data found. Verify filters."
  else Except.ok (sel.enum.map (fun p =>
    process_row ppt_template p.2 (table.map Row.fmtCells) p.1 selected_columns))

end Tools

namespace Shopfully

/-- `Shopfully_Tool.py` `process_row`: re-instantiates the template fresh,
then for each column substitutes the pandas value `row[col_name]`,
formatted with the number format of the worksheet cell
`f"{letter}{index + 2}"` where `index` is the row's original frame index
(its position in the source table). -/
def process_row (presentation_path : Presentation) (row : Row) (index : Nat)
    (wsTable : List (List (CellValue × String)))
    (selected_columns : List String) : String × Presentation :=
  let presentation := (row.cells.enum).foldl (fun pres p =>
    let column_letter := columnLetter p.1
    let cell_format := ((((wsTable.get? index).getD []).get? p.1).map Prod.snd).getD "General"
    update_text_of_textbox pres column_letter (toCellValue p.2.2) cell_format) presentation_path
  (get_filename_from_selection row selected_columns ++ ".pptx", presentation)

/-- The `df_selected` computed by `Shopfully_Tool.py` `process_files`,
keeping the original frame index of every selected row (pandas retains
labels through `iloc` slicing and boolean filtering, and `iterrows` yields
them as `index`). -/
def df_selected (table : List Row) (search_option : String)
    (start_row end_row : Nat) (store_ids : String) : List (Nat × Row) :=
  if search_option = "rows" then selectRows table.enum start_row end_row
  else if search_option = "store_id" then
    table.enum.filter (fun p =>
      ((splitComma store_ids.toList).map pyStripL).contains (firstColStr p.2).toList)
  else []

/-- `Shopfully_Tool.py` `process_files`: select rows, report an error when
nothing matched, otherwise process each selected row with its original
frame index and collect the written files. -/
def process_files (ppt_template : Presentation) (table : List Row)
    (search_option : String) (start_row end_row : Nat) (store_ids : String)
    (selected_columns : List String) : Except String (List (String × Presentation)) :=
  let sel := df_selected table search_option start_row end_row store_ids
  if sel.length = 0 then Except.error "⚠️ No files to generate. Check the filters."
  else Except.ok (sel.map (fun p =>
    process_row ppt_template p.2 p.1 (table.map Row.fmtCells) selected_columns))

/-- Specification-side per-row document: what `process_row` produces when
the worksheet row it reads is the row's own — a pure function of the
template and of the row alone. -/
def rowDoc (ppt_template : Presentation) (row : Row)
    (selected_columns : List String) : String × Presentation :=
  let presentation := (row.cells.enum).foldl (fun pres p =>
    let cell_format := ((row.fmtCells.get? p.1).map Prod.snd).getD "General"
    update_text_of_textbox pres (columnLetter p.1) (toCellValue p.2.2) cell_format)
    ppt_template
  (get_filename_from_selection row selected_columns ++ ".pptx", presentation)

end Shopfully

/-! ### Spec-side decimal rendering (for the refinement statements) -/

/-- Spec-side fixed one-decimal rendering of a multiple of `1/10`: sign,
integer part, `'.'`, one decimal digit. -/
def specOneDec (p : ℚ) : List Char :=
  let m := (10 * p).num
  (if m < 0 then ['-'] else []) ++
    natDigits (m.natAbs / 10) ++ '.' :: [digitChar (m.natAbs % 10)]

/-- Spec-side rendering of a one-decimal rational (the spec's "round to one
decimal place, strip trailing zero/decimal point"): an integer is shown
with no decimal part, otherwise the integer part and the single nonzero
decimal digit are shown.  Stated independently of the rstrip pipeline of
the code. -/
def specDecimal1 (r : ℚ) : List Char :=
  if r.den = 1 then intDigits r.num else specOneDec r

/-- Spec-side percentage rendering: `round(v*100, 1)` shown without a
decimal part when integral, else with exactly one decimal, suffixed `%`. -/
def specPercent (p : ℚ) : List Char :=
  (if p.den = 1 then intDigits p.num else specOneDec p) ++ ['%']

/-- Floor-based description of rounding half to even: used to relate
`roundHE` (integer arithmetic) to the mathematical rounding of `s * q`. -/
def roundHEQ (x : ℚ) : ℤ :=
  if x - ⌊x⌋ < 1/2 then ⌊x⌋
  else if 1/2 < x - ⌊x⌋ then ⌊x⌋ + 1
  else if ⌊x⌋ % 2 = 0 then ⌊x⌋ else ⌊x⌋ + 1

/-- The per-run effect of the per-column substitution loop of
`process_row`: column `i`'s formatted value replaces the token of letter
`chr(65 + i)`, columns in order. -/
def applyRowRun (vals : List String) (run : List Char) : List Char :=
  (vals.enum).foldl (fun acc p => replaceToken (columnLetter p.1) p.2.toList acc) run

/-- Claim-side by-range selection: the rows whose zero-based position lies
in the inclusive interval `[T start_row, T end_row]` under a translation
`T` of user-facing row numbers to table indices. -/
def rangeSelect (T : Nat → ℤ) (t : List α) (start_row end_row : Nat) : List α :=
  (t.enum.filter (fun p => T start_row ≤ (p.1 : ℤ) ∧ (p.1 : ℤ) ≤ T end_row)).map Prod.snd

/-- Claim-side filename: the chosen columns present in the row, in order,
each value rendered with the integer-elision rule (a float with no
fractional part renders as an integer), joined with underscores. -/
def specFilename (row : Row) (selected_columns : List String) : String :=
  String.intercalate "_"
    ((selected_columns.filter (fun col => (row.cells.map Prod.fst).contains col)).map
      (fun col => match (rowLookup row col).getD (PyValue.str "") with
        | .float q => if q.den = 1 then String.mk (intDigits q.num) else floatRepr q
        | v => pyStr v))

/-! ## Helper lemmas -/

theorem mk_append (a b : List Char) : String.mk a ++ String.mk b = String.mk (a ++ b) := rfl

theorem mem_cleanedL (b : Bool) (fmt : List Char) (c : Char)
    (h : c = '%' ∨ c = '€' ∨ c = '$' ∨ c = '£') : c ∈ cleanedL b fmt ↔ c ∈ fmt := by
  unfold cleanedL
  rw [List.mem_filter]
  rcases h with h | h | h | h <;> subst h <;> simp

theorem natDigitsAux_irrel (n : Nat) :
    ∀ f g, n < f → n < g → natDigitsAux f n = natDigitsAux g n := by
  induction n using Nat.strong_induction_on with
  | _ n ih =>
    intro f g hf hg
    match f, g with
    | f + 1, g + 1 =>
      by_cases h10 : n < 10
      · simp [natDigitsAux, h10]
      · have hlt : n / 10 < n := Nat.div_lt_self (by omega) (by omega)
        simp only [natDigitsAux, if_neg h10]
        rw [ih (n / 10) hlt (f) (g) (by omega) (by omega)]

/-- The recursive unfolding of `natDigits`. -/
theorem natDigits_eq (n : Nat) :
    natDigits n = if n < 10 then [digitChar n]
      else natDigits (n / 10) ++ [digitChar (n % 10)] := by
  unfold natDigits
  by_cases h10 : n < 10
  · simp [natDigitsAux, h10]
  · have hlt : n / 10 < n := Nat.div_lt_self (by omega) (by omega)
    simp only [natDigitsAux, if_neg h10]
    rw [natDigitsAux_irrel (n / 10) n (n / 10 + 1) (by omega) (by omega)]
    simp [natDigitsAux]

theorem natDigits_concat (n : Nat) :
    ∃ l, natDigits n = l ++ [digitChar (n % 10)] := by
  rw [natDigits_eq]
  by_cases h : n < 10
  · exact ⟨[], by simp [h, Nat.mod_eq_of_lt h]⟩
  · exact ⟨natDigits (n / 10), by simp [h]⟩

theorem digitChar_lt_ten_ne_dot {d : Nat} (h : d < 10) : digitChar d ≠ '.' := by
  interval_cases d <;> decide

theorem digitChar_ne_zero_char {d : Nat} (h : d < 10) (h0 : d ≠ 0) : digitChar d ≠ '0' := by
  interval_cases d <;> first | omega | decide

theorem rstripL_stop {c b : Char} (hb : b ≠ c) (l : List Char) :
    rstripL c (l ++ [b]) = l ++ [b] := by
  unfold rstripL
  rw [List.reverse_append]
  simp [List.dropWhile_cons, hb]

theorem rstripL_once {c b : Char} (hb : b ≠ c) (l : List Char) :
    rstripL c (l ++ [b, c]) = l ++ [b] := by
  unfold rstripL
  rw [show l ++ [b, c] = (l ++ [b]) ++ [c] by simp]
  rw [List.reverse_append]
  simp [List.dropWhile_cons, hb]

theorem roundHE_spec (s : ℤ) (q : ℚ) : roundHE s q = roundHEQ ((s : ℚ) * q) := by
  have hdpos : 0 < q.den := q.den_pos
  have hd0 : (0 : ℤ) < (q.den : ℤ) := by exact_mod_cast hdpos
  have hdq : (0 : ℚ) < ((q.den : ℤ) : ℚ) := by exact_mod_cast hd0
  have hx : (s : ℚ) * q = ((s * q.num : ℤ) : ℚ) / (((q.den : ℤ)) : ℚ) := by
    conv_lhs => rw [← Rat.num_div_den q]
    push_cast
    ring
  have hfl : ⌊(s : ℚ) * q⌋ = (s * q.num) / (q.den : ℤ) := by
    rw [hx, show (((q.den : ℤ)) : ℚ) = ((q.den : ℕ) : ℚ) from Int.cast_natCast q.den]
    exact Rat.floor_intCast_div_natCast (s * q.num) q.den
  have hfr : (s : ℚ) * q - (⌊(s : ℚ) * q⌋ : ℚ) =
      (((s * q.num) % (q.den : ℤ) : ℤ) : ℚ) / (((q.den : ℤ)) : ℚ) := by
    rw [hfl, hx, Int.emod_def]
    push_cast
    field_simp
  have h1 : ((s : ℚ) * q - (⌊(s : ℚ) * q⌋ : ℚ) < 1/2) ↔
      2 * ((s * q.num) % (q.den : ℤ)) < (q.den : ℤ) := by
    rw [hfr, div_lt_div_iff₀ hdq (by norm_num : (0:ℚ) < 2),
      show ((s * q.num % (q.den : ℤ) : ℤ) : ℚ) * 2 = ((2 * (s * q.num % (q.den : ℤ)) : ℤ) : ℚ) by
        push_cast; ring,
      show (1 : ℚ) * (((q.den : ℤ)) : ℚ) = (((q.den : ℤ)) : ℚ) by ring]
    exact Int.cast_lt
  have h2 : (1/2 < (s : ℚ) * q - (⌊(s : ℚ) * q⌋ : ℚ)) ↔
      (q.den : ℤ) < 2 * ((s * q.num) % (q.den : ℤ)) := by
    rw [hfr, div_lt_div_iff₀ (by norm_num : (0:ℚ) < 2) hdq,
      show ((s * q.num % (q.den : ℤ) : ℤ) : ℚ) * 2 = ((2 * (s * q.num % (q.den : ℤ)) : ℤ) : ℚ) by
        push_cast; ring,
      show (1 : ℚ) * (((q.den : ℤ)) : ℚ) = (((q.den : ℤ)) : ℚ) by ring]
    exact Int.cast_lt
  unfold roundHE roundHEQ
  simp only [h1, h2]
  simp only [hfl]

theorem pyRound1_int_cast (t : ℤ) (h : t % 10 = 0) :
    ((t : ℚ) / 10) = ((t / 10 : ℤ) : ℚ) := by
  have ht : t = 10 * (t / 10) := by omega
  rw [ht]
  push_cast
  rw [mul_comm, mul_div_assoc]
  norm_num

theorem den_pyRound1 (q : ℚ) : (pyRound1 q).den = 1 ↔ roundHE 10 q % 10 = 0 := by
  unfold pyRound1
  constructor
  · intro h
    have h2 := (Rat.den_eq_one_iff _).mp h
    set t := roundHE 10 q
    set m := ((t : ℚ) / 10).num with hm
    have h3 : (m : ℚ) * 10 = (t : ℚ) := by
      rw [h2]
      field_simp
    have h4 : m * 10 = t := by exact_mod_cast h3
    omega
  · intro h
    rw [pyRound1_int_cast _ h, Rat.den_intCast]

theorem num_pyRound1 (q : ℚ) (h : roundHE 10 q % 10 = 0) :
    (pyRound1 q).num = roundHE 10 q / 10 := by
  unfold pyRound1
  rw [pyRound1_int_cast _ h, Rat.num_intCast]

theorem ten_mul_pyRound1 (q : ℚ) : (10 * pyRound1 q) = ((roundHE 10 q : ℤ) : ℚ) := by
  unfold pyRound1
  rw [mul_comm, div_mul_cancel₀]
  norm_num

theorem natAbs_emod_ten (t : ℤ) : t % 10 = 0 ↔ t.natAbs % 10 = 0 := by omega

theorem plainL_spec (q : ℚ) : plainL false q = specDecimal1 (pyRound1 q) := by
  set t := roundHE 10 q with ht
  have hfix : fixed1L false t =
      ((if t < 0 then ['-'] else []) ++ natDigits (t.natAbs / 10)) ++
        ['.', digitChar (t.natAbs % 10)] := by
    unfold fixed1L
    simp
  by_cases h0 : t.natAbs % 10 = 0
  · -- trailing digit is '0': both rstrips fire
    have hdig : digitChar (t.natAbs % 10) = '0' := by rw [h0]; rfl
    obtain ⟨l, hl⟩ := natDigits_concat (t.natAbs / 10)
    have hlast : digitChar (t.natAbs / 10 % 10) ≠ '.' := digitChar_lt_ten_ne_dot (by omega)
    have hstep1 : rstripL '0' (fixed1L false t) =
        ((if t < 0 then ['-'] else []) ++ natDigits (t.natAbs / 10)) ++ ['.'] := by
      rw [hfix, hdig]
      exact rstripL_once (by decide) _
    have hstep2 : plainL false q =
        (if t < 0 then ['-'] else []) ++ natDigits (t.natAbs / 10) := by
      unfold plainL
      rw [← ht, hstep1, hl]
      rw [show ((if t < 0 then ['-'] else []) ++ (l ++ [digitChar (t.natAbs / 10 % 10)])) ++ ['.']
          = ((if t < 0 then ['-'] else []) ++ l) ++ [digitChar (t.natAbs / 10 % 10), '.'] by simp]
      rw [rstripL_once hlast]
      simp
    rw [hstep2]
    have hmod : t % 10 = 0 := (natAbs_emod_ten t).mpr h0
    unfold specDecimal1
    rw [if_pos ((den_pyRound1 q).mpr hmod), num_pyRound1 q hmod]
    unfold intDigits
    simp only [← ht]
    have habs : (t / 10).natAbs = t.natAbs / 10 := by omega
    have hsgn : (t / 10 < 0) ↔ (t < 0) := by
      by_cases ht0 : t = 0
      · simp [ht0]
      · omega
    congr 1
    · simp only [hsgn]
    · rw [habs]
  · -- trailing digit nonzero: both rstrips are no-ops
    have hd10 : t.natAbs % 10 < 10 := by omega
    have hne0 : digitChar (t.natAbs % 10) ≠ '0' := digitChar_ne_zero_char hd10 h0
    have hnedot : digitChar (t.natAbs % 10) ≠ '.' := digitChar_lt_ten_ne_dot hd10
    have hstep : plainL false q = fixed1L false t := by
      unfold plainL
      rw [← ht, hfix]
      rw [show ((if t < 0 then ['-'] else []) ++ natDigits (t.natAbs / 10)) ++
          ['.', digitChar (t.natAbs % 10)]
          = (((if t < 0 then ['-'] else []) ++ natDigits (t.natAbs / 10)) ++ ['.']) ++
            [digitChar (t.natAbs % 10)] by simp]
      rw [rstripL_stop hne0, rstripL_stop hnedot]
    rw [hstep]
    have hmod : ¬ t % 10 = 0 := fun hc => h0 ((natAbs_emod_ten t).mp hc)
    unfold specDecimal1
    rw [if_neg (fun hc => hmod ((den_pyRound1 q).mp hc))]
    unfold specOneDec
    rw [ten_mul_pyRound1, Rat.num_intCast, ← ht, hfix]

theorem group3_short (l : List Char) (h : l.length ≤ 3) : group3 l = l := by
  match l with
  | [] => rfl
  | [a] => rfl
  | [a, b] => rfl
  | [a, b, c] => rfl
  | a :: b :: c :: d :: t => simp at h

theorem natDigits_len : ∀ (k n : Nat), n < 10 ^ (k + 1) → (natDigits n).length ≤ k + 1 := by
  intro k
  induction k with
  | zero =>
    intro n h
    rw [natDigits_eq, if_pos (by simpa using h)]
    simp only [List.length_cons, List.length_nil]
    omega
  | succ k ih =>
    intro n h
    rw [natDigits_eq]
    by_cases h10 : n < 10
    · rw [if_pos h10]
      simp only [List.length_cons, List.length_nil]
      omega
    · rw [if_neg h10]
      have hp : 10 ^ (k + 2) = 10 ^ (k + 1) * 10 := by ring
      have hdiv : n / 10 < 10 ^ (k + 1) := by
        rw [hp] at h
        omega
      have := ih (n / 10) hdiv
      simp only [List.length_append, List.length_cons, List.length_nil]
      omega

theorem groupDigits_small (l : List Char) (h : l.length ≤ 3) : groupDigits l = l := by
  unfold groupDigits
  rw [group3_short _ (by simpa using h)]
  simp

theorem plainL_grouped (q : ℚ) (h : (roundHE 10 q).natAbs < 10000) :
    plainL true q = plainL false q := by
  have h3 : (natDigits ((roundHE 10 q).natAbs / 10)).length ≤ 3 := by
    apply natDigits_len 2
    norm_num
    omega
  unfold plainL fixed1L
  simp only [eq_self_iff_true, if_true, Bool.false_eq_true, if_false]
  rw [groupDigits_small _ h3]

theorem curSymL_euro (cf : List Char) (h : '€' ∈ cf) : curSymL cf = ['€'] := by
  unfold curSymL
  rw [if_pos h]

theorem curSymL_dollar (cf : List Char) (h1 : '€' ∉ cf) (h2 : '$' ∈ cf) :
    curSymL cf = ['$'] := by
  unfold curSymL
  rw [if_neg h1, if_pos h2]

theorem curSymL_pound (cf : List Char) (h1 : '€' ∉ cf) (h2 : '$' ∉ cf) (h3 : '£' ∈ cf) :
    curSymL cf = ['£'] := by
  unfold curSymL
  rw [if_neg h1, if_neg h2, if_pos h3]

theorem curSymL_none (cf : List Char) (h1 : '€' ∉ cf) (h2 : '$' ∉ cf) (h3 : '£' ∉ cf) :
    curSymL cf = [] := by
  unfold curSymL
  rw [if_neg h1, if_neg h2, if_neg h3]

theorem tools_format_currency (v : ℚ) (fmt : String) (S : Char)
    (h : curSymL (cleanedL true fmt.toList) = [S]) :
    Tools.format_cell_value (.num v) fmt = String.mk (plainL true v ++ [' ', S]) := by
  unfold Tools.format_cell_value
  simp only [h]
  rw [if_pos (by simp)]

theorem shopfully_format_currency (v : ℚ) (fmt : String) (S : Char)
    (h : curSymL (cleanedL false fmt.toList) = [S]) :
    Shopfully.format_cell_value (.num v) fmt = String.mk (plainL false v ++ [' ', S]) := by
  unfold Shopfully.format_cell_value
  simp only [h]
  rw [if_pos (by simp)]

theorem tools_format_plain (v : ℚ) (fmt : String)
    (h : curSymL (cleanedL true fmt.toList) = []) (hp : '%' ∉ cleanedL true fmt.toList) :
    Tools.format_cell_value (.num v) fmt = String.mk (plainL true v) := by
  unfold Tools.format_cell_value
  simp only [h]
  rw [if_neg (by simp), if_neg hp]

theorem shopfully_format_plain (v : ℚ) (fmt : String)
    (h : curSymL (cleanedL false fmt.toList) = []) (hp : '%' ∉ cleanedL false fmt.toList) :
    Shopfully.format_cell_value (.num v) fmt = String.mk (plainL false v) := by
  unfold Shopfully.format_cell_value
  simp only [h]
  rw [if_neg (by simp), if_neg hp]

theorem tools_format_percent (v : ℚ) (fmt : String)
    (h : curSymL (cleanedL true fmt.toList) = []) (hp : '%' ∈ cleanedL true fmt.toList) :
    Tools.format_cell_value (.num v) fmt =
      (if roundHE 1000 v % 10 = 0 then String.mk (intDigits (roundHE 1000 v / 10) ++ ['%'])
       else String.mk (fixed1L false (roundHE 1000 v) ++ ['%'])) := by
  unfold Tools.format_cell_value
  simp only [h]
  rw [if_neg (by simp), if_pos hp]

theorem shopfully_format_percent (v : ℚ) (fmt : String)
    (h : curSymL (cleanedL false fmt.toList) = []) (hp : '%' ∈ cleanedL false fmt.toList) :
    Shopfully.format_cell_value (.num v) fmt =
      (if roundHE 1000 v % 10 = 0 then String.mk (intDigits (roundHE 1000 v / 10) ++ ['%'])
       else String.mk (fixed1L false (roundHE 1000 v) ++ ['%'])) := by
  unfold Shopfully.format_cell_value
  simp only [h]
  rw [if_neg (by simp), if_pos hp]

theorem roundHE_hundred (v : ℚ) : roundHE 10 (v * 100) = roundHE 1000 v := by
  rw [roundHE_spec 10 (v * 100), roundHE_spec 1000 v]
  congr 1
  push_cast
  ring

theorem specOneDec_pyRound1 (q : ℚ) : specOneDec (pyRound1 q) = fixed1L false (roundHE 10 q) := by
  unfold specOneDec fixed1L
  rw [ten_mul_pyRound1, Rat.num_intCast]
  simp

/-- C10: when the cleaned format holds more than one recognized currency
glyph, `format_cell_value` (both files) deterministically prefers `€`,
then `$`, then `£`: its output equals the output for a format holding only
the preferred glyph. -/
theorem c10_currency_priority (v : ℚ) (fmt : String) :
    ('€' ∈ fmt.toList →
      Tools.format_cell_value (.num v) fmt = Tools.format_cell_value (.num v) "€" ∧
      Shopfully.format_cell_value (.num v) fmt = Shopfully.format_cell_value (.num v) "€") ∧
    ('€' ∉ fmt.toList → '$' ∈ fmt.toList →
      Tools.format_cell_value (.num v) fmt = Tools.format_cell_value (.num v) "$" ∧
      Shopfully.format_cell_value (.num v) fmt = Shopfully.format_cell_value (.num v) "$") ∧
    ('€' ∉ fmt.toList → '$' ∉ fmt.toList → '£' ∈ fmt.toList →
      Tools.format_cell_value (.num v) fmt = Tools.format_cell_value (.num v) "£" ∧
      Shopfully.format_cell_value (.num v) fmt = Shopfully.format_cell_value (.num v) "£") := by
  refine ⟨fun h => ?_, fun h1 h2 => ?_, fun h1 h2 h3 => ?_⟩
  · constructor
    · rw [tools_format_currency v fmt '€'
          (curSymL_euro _ ((mem_cleanedL true _ '€' (by tauto)).mpr h)),
        tools_format_currency v "€" '€' (by decide)]
    · rw [shopfully_format_currency v fmt '€'
          (curSymL_euro _ ((mem_cleanedL false _ '€' (by tauto)).mpr h)),
        shopfully_format_currency v "€" '€' (by decide)]
  · constructor
    · rw [tools_format_currency v fmt '$'
          (curSymL_dollar _ (fun hc => h1 ((mem_cleanedL true _ '€' (by tauto)).mp hc))
            ((mem_cleanedL true _ '$' (by tauto)).mpr h2)),
        tools_format_currency v "$" '$' (by decide)]
    · rw [shopfully_format_currency v fmt '$'
          (curSymL_dollar _ (fun hc => h1 ((mem_cleanedL false _ '€' (by tauto)).mp hc))
            ((mem_cleanedL false _ '$' (by tauto)).mpr h2)),
        shopfully_format_currency v "$" '$' (by decide)]
  · constructor
    · rw [tools_format_currency v fmt '£'
          (curSymL_pound _ (fun hc => h1 ((mem_cleanedL true _ '€' (by tauto)).mp hc))
            (fun hc => h2 ((mem_cleanedL true _ '$' (by tauto)).mp hc))
            ((mem_cleanedL true _ '£' (by tauto)).mpr h3)),
        tools_format_currency v "£" '£' (by decide)]
    · rw [shopfully_format_currency v fmt '£'
          (curSymL_pound _ (fun hc => h1 ((mem_cleanedL false _ '€' (by tauto)).mp hc))
            (fun hc => h2 ((mem_cleanedL false _ '$' (by tauto)).mp hc))
            ((mem_cleanedL false _ '£' (by tauto)).mpr h3)),
        shopfully_format_currency v "£" '£' (by decide)]

theorem c10_currency_priority_witness :
    ('€' ∈ ("$€%" : String).toList) ∧
    Tools.format_cell_value (.num (mkRat 9999 1000)) "$€%" =
      Tools.format_cell_value (.num (mkRat 9999 1000)) "€" ∧
    Tools.format_cell_value (.num (mkRat 9999 1000)) "$€%" = "10 €" :=
  ⟨by decide, ((c10_currency_priority (mkRat 9999 1000) "$€%").1 (by decide)).1, by decide⟩

/-- C3: for a numeric value and a format string holding exactly one
recognized currency glyph `S`, `format_cell_value` returns the plain
rendering of the value (what a glyph- and percent-free format produces,
rounding before the trailing-zero elision) followed by one space and `S` —
in each file, with that file's own plain rendering. -/
theorem c3_currency_format (v : ℚ) (fmt : String) (S : Char)
    (hS : S = '€' ∨ S = '$' ∨ S = '£') (hmem : S ∈ fmt.toList)
    (honly : ∀ c, (c = '€' ∨ c = '$' ∨ c = '£') → c ≠ S → c ∉ fmt.toList) :
    Tools.format_cell_value (.num v) fmt =
      Tools.format_cell_value (.num v) "" ++ String.mk [' ', S] ∧
    Shopfully.format_cell_value (.num v) fmt =
      Shopfully.format_cell_value (.num v) "" ++ String.mk [' ', S] := by
  have hsymT : curSymL (cleanedL true fmt.toList) = [S] := by
    rcases hS with h | h | h <;> subst h
    · exact curSymL_euro _ ((mem_cleanedL true _ '€' (by tauto)).mpr hmem)
    · exact curSymL_dollar _
        (fun hc => honly '€' (by tauto) (by decide) ((mem_cleanedL true _ '€' (by tauto)).mp hc))
        ((mem_cleanedL true _ '$' (by tauto)).mpr hmem)
    · exact curSymL_pound _
        (fun hc => honly '€' (by tauto) (by decide) ((mem_cleanedL true _ '€' (by tauto)).mp hc))
        (fun hc => honly '$' (by tauto) (by decide) ((mem_cleanedL true _ '$' (by tauto)).mp hc))
        ((mem_cleanedL true _ '£' (by tauto)).mpr hmem)
  have hsymS : curSymL (cleanedL false fmt.toList) = [S] := by
    rcases hS with h | h | h <;> subst h
    · exact curSymL_euro _ ((mem_cleanedL false _ '€' (by tauto)).mpr hmem)
    · exact curSymL_dollar _
        (fun hc => honly '€' (by tauto) (by decide) ((mem_cleanedL false _ '€' (by tauto)).mp hc))
        ((mem_cleanedL false _ '$' (by tauto)).mpr hmem)
    · exact curSymL_pound _
        (fun hc => honly '€' (by tauto) (by decide) ((mem_cleanedL false _ '€' (by tauto)).mp hc))
        (fun hc => honly '$' (by tauto) (by decide) ((mem_cleanedL false _ '$' (by tauto)).mp hc))
        ((mem_cleanedL false _ '£' (by tauto)).mpr hmem)
  constructor
  · rw [tools_format_currency v fmt S hsymT,
      tools_format_plain v "" (by decide) (by decide), mk_append]
  · rw [shopfully_format_currency v fmt S hsymS,
      shopfully_format_plain v "" (by decide) (by decide), mk_append]

theorem c3_currency_format_witness :
    ('€' ∈ ("0.00 €" : String).toList) ∧
    Shopfully.format_cell_value (.num (mkRat 9999 1000)) "0.00 €" =
      Shopfully.format_cell_value (.num (mkRat 9999 1000)) "" ++ String.mk [' ', '€'] ∧
    Shopfully.format_cell_value (.num (mkRat 9999 1000)) "0.00 €" = "10 €" :=
  ⟨by decide,
   (c3_currency_format (mkRat 9999 1000) "0.00 €" '€' (by tauto) (by decide)
     (by intro c hc hne; rcases hc with h | h | h <;> subst h <;> first | exact absurd rfl hne | decide)).2,
   by decide⟩

/-- C4: for a numeric value and a format string holding a percent marker
and no currency glyph, `format_cell_value` (both files) returns
`round(v*100, 1)` rendered with no decimal part when the rounded value is
integral and with exactly one decimal place otherwise, suffixed `%`
(`specPercent`). -/
theorem c4_percent_format (v : ℚ) (fmt : String)
    (h1 : '€' ∉ fmt.toList) (h2 : '$' ∉ fmt.toList) (h3 : '£' ∉ fmt.toList)
    (hp : '%' ∈ fmt.toList) :
    Tools.format_cell_value (.num v) fmt = String.mk (specPercent (pyRound1 (v * 100))) ∧
    Shopfully.format_cell_value (.num v) fmt = String.mk (specPercent (pyRound1 (v * 100))) := by
  have hsymT : curSymL (cleanedL true fmt.toList) = [] :=
    curSymL_none _
      (fun hc => h1 ((mem_cleanedL true _ '€' (by tauto)).mp hc))
      (fun hc => h2 ((mem_cleanedL true _ '$' (by tauto)).mp hc))
      (fun hc => h3 ((mem_cleanedL true _ '£' (by tauto)).mp hc))
  have hsymS : curSymL (cleanedL false fmt.toList) = [] :=
    curSymL_none _
      (fun hc => h1 ((mem_cleanedL false _ '€' (by tauto)).mp hc))
      (fun hc => h2 ((mem_cleanedL false _ '$' (by tauto)).mp hc))
      (fun hc => h3 ((mem_cleanedL false _ '£' (by tauto)).mp hc))
  have hrhs : String.mk (specPercent (pyRound1 (v * 100))) =
      (if roundHE 1000 v % 10 = 0 then String.mk (intDigits (roundHE 1000 v / 10) ++ ['%'])
       else String.mk (fixed1L false (roundHE 1000 v) ++ ['%'])) := by
    unfold specPercent
    by_cases h0 : roundHE 1000 v % 10 = 0
    · rw [if_pos h0,
        if_pos ((den_pyRound1 (v * 100)).mpr (by rw [roundHE_hundred]; exact h0)),
        num_pyRound1 (v * 100) (by rw [roundHE_hundred]; exact h0), roundHE_hundred]
    · rw [if_neg h0,
        if_neg (fun hc => h0 (by rw [← roundHE_hundred]; exact (den_pyRound1 (v * 100)).mp hc)),
        specOneDec_pyRound1, roundHE_hundred]
  refine ⟨?_, ?_⟩
  · rw [tools_format_percent v fmt hsymT ((mem_cleanedL true _ '%' (by tauto)).mpr hp), hrhs]
  · rw [shopfully_format_percent v fmt hsymS ((mem_cleanedL false _ '%' (by tauto)).mpr hp), hrhs]

theorem c4_percent_format_witness :
    ('%' ∈ ("0.0%" : String).toList) ∧
    Shopfully.format_cell_value (.num (mkRat 1 2)) "0.0%" =
      String.mk (specPercent (pyRound1 ((mkRat 1 2) * 100))) ∧
    Shopfully.format_cell_value (.num (mkRat 1 2)) "0.0%" = "50%" ∧
    Shopfully.format_cell_value (.num (mkRat 101 200)) "0.0%" = "50.5%" :=
  ⟨by decide,
   (c4_percent_format (mkRat 1 2) "0.0%" (by decide) (by decide) (by decide) (by decide)).2,
   by decide, by decide⟩

/-- C1 counterexample: the claim renders `5.25` as `"5.3"`, but Python's
`round` is half-to-even, so both formatters render the plain value `5.25`
as `"5.2"`. -/
theorem c1_counterexample :
    Shopfully.format_cell_value (.num (mkRat 21 4)) "General" = "5.2" ∧
    Tools.format_cell_value (.num (mkRat 21 4)) "General" = "5.2" ∧
    ("5.2" : String) ≠ "5.3" := by
  refine ⟨by decide, by decide, by decide⟩

/-- C1 (amended): for a numeric value and a format with no currency glyph
and no percent marker, `Shopfully_Tool.py` renders the value rounded to
one decimal half-to-even with the trailing zero and decimal point stripped
(`specDecimal1` of `pyRound1`); `Tools.py` renders the same whenever the
rounded magnitude stays below 1000 (beyond that it inserts `,` thousands
separators). -/
theorem c1_amended (v : ℚ) (fmt : String)
    (h1 : '€' ∉ fmt.toList) (h2 : '$' ∉ fmt.toList) (h3 : '£' ∉ fmt.toList)
    (hp : '%' ∉ fmt.toList) :
    Shopfully.format_cell_value (.num v) fmt = String.mk (specDecimal1 (pyRound1 v)) ∧
    ((roundHE 10 v).natAbs < 10000 →
      Tools.format_cell_value (.num v) fmt = String.mk (specDecimal1 (pyRound1 v))) := by
  have hsymT : curSymL (cleanedL true fmt.toList) = [] :=
    curSymL_none _
      (fun hc => h1 ((mem_cleanedL true _ '€' (by tauto)).mp hc))
      (fun hc => h2 ((mem_cleanedL true _ '$' (by tauto)).mp hc))
      (fun hc => h3 ((mem_cleanedL true _ '£' (by tauto)).mp hc))
  have hsymS : curSymL (cleanedL false fmt.toList) = [] :=
    curSymL_none _
      (fun hc => h1 ((mem_cleanedL false _ '€' (by tauto)).mp hc))
      (fun hc => h2 ((mem_cleanedL false _ '$' (by tauto)).mp hc))
      (fun hc => h3 ((mem_cleanedL false _ '£' (by tauto)).mp hc))
  refine ⟨?_, fun hb => ?_⟩
  · rw [shopfully_format_plain v fmt hsymS
      (fun hc => hp ((mem_cleanedL false _ '%' (by tauto)).mp hc)), plainL_spec]
  · rw [tools_format_plain v fmt hsymT
      (fun hc => hp ((mem_cleanedL true _ '%' (by tauto)).mp hc)),
      plainL_grouped v hb, plainL_spec]

theorem c1_amended_witness :
    Shopfully.format_cell_value (.num (mkRat 21 4)) "General" =
      String.mk (specDecimal1 (pyRound1 (mkRat 21 4))) ∧
    Tools.format_cell_value (.num (mkRat 21 4)) "General" =
      String.mk (specDecimal1 (pyRound1 (mkRat 21 4))) :=
  ⟨(c1_amended (mkRat 21 4) "General" (by decide) (by decide) (by decide) (by decide)).1,
   (c1_amended (mkRat 21 4) "General" (by decide) (by decide) (by decide) (by decide)).2
     (by decide)⟩

theorem contains_eq_isSome (cells : List (String × PyValue)) (col : String) :
    (cells.map Prod.fst).contains col = (cells.find? (fun p => p.1 == col)).isSome := by
  induction cells with
  | nil => rfl
  | cons p t ih =>
    by_cases h : p.1 = col <;>
      simp [List.contains_cons, List.find?_cons, h, Ne.symm, beq_iff_eq, ← ih]

theorem shopfully_filename_spec (row : Row) (cols : List String) :
    Shopfully.get_filename_from_selection row cols = specFilename row cols := by
  unfold Shopfully.get_filename_from_selection specFilename
  congr 1
  induction cols with
  | nil => rfl
  | cons c t ih =>
    rw [List.filterMap_cons, List.filter_cons]
    have hc := contains_eq_isSome row.cells c
    cases hl : row.cells.find? (fun p => p.1 == c) with
    | none =>
      have hrl : rowLookup row c = none := by rw [rowLookup, hl]; rfl
      rw [hl] at hc
      simp only [Option.isSome_none] at hc
      rw [hrl, hc]
      simp only [Option.map_none', Bool.false_eq_true, if_false]
      exact ih
    | some p =>
      have hrl : rowLookup row c = some p.2 := by rw [rowLookup, hl]; rfl
      rw [hl] at hc
      simp only [Option.isSome_some] at hc
      rw [hrl, hc]
      simp only [Option.map_some', eq_self_iff_true, if_true, List.map_cons,
        Option.getD_some]
      rw [ih]
      congr 1
      rw [hrl]
      simp only [Option.getD_some]
      cases p.2 <;> rfl

/-- C6 counterexample: `Tools.py` builds file names with plain `str`, so
the row `{ColA: 5.0, ColB: "East"}` yields `"5.0_East"`, not the claimed
`"5_East"` (only `Shopfully_Tool.py` elides the `.0`). -/
theorem c6_counterexample :
    Tools.get_filename_from_selection
      ⟨[("ColA", PyValue.float 5), ("ColB", PyValue.str "East")], []⟩ ["ColA", "ColB"]
      = "5.0_East" ∧
    ("5.0_East" : String) ≠ "5_East" := by
  refine ⟨by decide, by decide⟩

/-- C6 (amended): `Shopfully_Tool.py` builds the file name by joining with
underscores the chosen columns present in the row, in order, a float with
no fractional part rendered as an integer — `{ColA: 5.0, ColB: "East"}`
yields `"5_East"`; `Tools.py` uses plain `str` with no integer elision. -/
theorem c6_amended :
    (∀ (row : Row) (cols : List String),
      Shopfully.get_filename_from_selection row cols = specFilename row cols) ∧
    Shopfully.get_filename_from_selection
      ⟨[("ColA", PyValue.float 5), ("ColB", PyValue.str "East")], []⟩ ["ColA", "ColB"]
      = "5_East" :=
  ⟨fun row cols => shopfully_filename_spec row cols, by decide⟩

theorem contains_iff_mem_chars (l : List (List Char)) (x : List Char) :
    l.contains x = true ↔ x ∈ l := by
  simp [List.contains, List.elem_iff]

/-- C5: identifier selection (both files share this logic) keeps exactly
the rows whose first-column string form equals one of the trimmed
comma-separated identifiers, in original table order (a sublist of the
table), and the selection is invariant under permutation of the trimmed
request list. -/
theorem c5_identifier_selection (t : List Row) (ids1 ids2 : String) :
    (selectByIds t ids1).Sublist t ∧
    (∀ r, r ∈ selectByIds t ids1 ↔
      r ∈ t ∧ ∃ s ∈ (splitComma ids1.toList).map pyStripL, (firstColStr r).toList = s) ∧
    (((splitComma ids1.toList).map pyStripL).Perm ((splitComma ids2.toList).map pyStripL) →
      selectByIds t ids1 = selectByIds t ids2) := by
  refine ⟨List.filter_sublist t, fun r => ?_, fun hperm => ?_⟩
  · unfold selectByIds
    rw [List.mem_filter, contains_iff_mem_chars]
    simp [eq_comm]
  · unfold selectByIds
    apply List.filter_congr
    intro r _
    have h1 := contains_iff_mem_chars ((splitComma ids1.toList).map pyStripL)
      (firstColStr r).toList
    have h2 := contains_iff_mem_chars ((splitComma ids2.toList).map pyStripL)
      (firstColStr r).toList
    have : (firstColStr r).toList ∈ (splitComma ids1.toList).map pyStripL ↔
        (firstColStr r).toList ∈ (splitComma ids2.toList).map pyStripL := hperm.mem_iff
    by_cases hm : (firstColStr r).toList ∈ (splitComma ids1.toList).map pyStripL
    · rw [h1.mpr hm, h2.mpr (this.mp hm)]
    · rw [Bool.eq_iff_iff, h1, h2]
      tauto

theorem c5_identifier_selection_witness :
    selectByIds
        [⟨[("ID", PyValue.str "A1")], []⟩, ⟨[("ID", PyValue.str "B2")], []⟩,
         ⟨[("ID", PyValue.str "C3")], []⟩] "B2, C3" =
      selectByIds
        [⟨[("ID", PyValue.str "A1")], []⟩, ⟨[("ID", PyValue.str "B2")], []⟩,
         ⟨[("ID", PyValue.str "C3")], []⟩] "C3, B2" ∧
    selectByIds
        [⟨[("ID", PyValue.str "A1")], []⟩, ⟨[("ID", PyValue.str "B2")], []⟩,
         ⟨[("ID", PyValue.str "C3")], []⟩] "B2, C3" =
      [⟨[("ID", PyValue.str "B2")], []⟩, ⟨[("ID", PyValue.str "C3")], []⟩] :=
  ⟨(c5_identifier_selection
      [⟨[("ID", PyValue.str "A1")], []⟩, ⟨[("ID", PyValue.str "B2")], []⟩,
       ⟨[("ID", PyValue.str "C3")], []⟩] "B2, C3" "C3, B2").2.2 (by decide),
   by decide⟩

theorem fst_ge_of_mem_enumFrom :
    ∀ (l : List α) (k : Nat) (p : Nat × α), p ∈ l.enumFrom k → k ≤ p.1 := by
  intro l
  induction l with
  | nil => intro k p hp; simp at hp
  | cons x t ih =>
    intro k p hp
    rw [List.enumFrom_cons] at hp
    rcases List.mem_cons.mp hp with h | h
    · subst h; exact Nat.le_refl k
    · have := ih (k + 1) p h
      omega

theorem take_drop_enumFrom (t : List α) :
    ∀ (k a b : Nat), (t.take b).drop a =
      ((t.enumFrom k).filter (fun p => k + a ≤ p.1 ∧ p.1 < k + b)).map Prod.snd := by
  induction t with
  | nil => intro k a b; simp
  | cons x t ih =>
    intro k a b
    match b with
    | 0 =>
      rw [List.take_zero, List.drop_nil]
      symm
      rw [List.map_eq_nil_iff, List.filter_eq_nil_iff]
      intro p hp
      have := fst_ge_of_mem_enumFrom _ _ _ hp
      simp only [decide_eq_true_eq, not_and, not_lt]
      omega
    | b + 1 =>
      rw [List.take_succ_cons, List.enumFrom_cons]
      match a with
      | 0 =>
        rw [List.drop_zero, List.filter_cons]
        rw [if_pos (by simp)]
        rw [List.map_cons]
        congr 1
        rw [show (t.take b) = (t.take b).drop 0 from rfl, ih (k + 1) 0 b]
        congr 1
        apply List.filter_congr
        intro p hp
        have := fst_ge_of_mem_enumFrom _ _ _ hp
        simp only [decide_eq_decide]
        omega
      | a + 1 =>
        rw [List.drop_succ_cons, List.filter_cons]
        rw [if_neg (by simp)]
        rw [ih (k + 1) a b]
        congr 1
        apply List.filter_congr
        intro p hp
        simp only [decide_eq_decide]
        omega

theorem take_min (l : List α) (b : Nat) : l.take (min b l.length) = l.take b := by
  rcases Nat.le_total b l.length with h | h
  · rw [Nat.min_eq_left h]
  · rw [Nat.min_eq_right h, List.take_length, List.take_of_length_le h]

theorem drop_min (l' : List α) (a n : Nat) (h : l'.length ≤ n) :
    l'.drop (min a n) = l'.drop a := by
  rcases Nat.le_total a n with ha | ha
  · rw [Nat.min_eq_left ha]
  · rw [Nat.min_eq_right ha, List.drop_of_length_le h,
      List.drop_of_length_le (le_trans h ha)]

theorem pySlice_nat (l : List α) (a b : Nat) :
    pySlice l (a : ℤ) (b : ℤ) = (l.enum.filter (fun p => a ≤ p.1 ∧ p.1 < b)).map Prod.snd := by
  unfold pySlice pyBound
  rw [if_neg (by omega : ¬ (b : ℤ) < 0), if_neg (by omega : ¬ (a : ℤ) < 0)]
  simp only [Int.toNat_natCast]
  rw [take_min, drop_min _ _ _ (by rw [List.length_take]; omega),
    List.enum_eq_enumFrom, take_drop_enumFrom l 0 a b]
  simp only [Nat.zero_add]

/-- C2 counterexample: no monotone translation of 1-based user row numbers
to 0-based indices describes `Shopfully_Tool.py`'s by-range selection:
bounds (2,3) select the first two of four rows, forcing the translation
`N ↦ N - 2`, but bounds (1,3) — a superset under any such translation —
select nothing, because `iloc[1-2:3-1]` wraps the negative start around. -/
theorem c2_counterexample :
    ¬ ∃ T : Nat → ℤ, Monotone T ∧ ∀ (s e : Nat), 1 ≤ s → 1 ≤ e →
      Shopfully.selectRows [10, 20, 30, 40] s e = rangeSelect T [10, 20, 30, 40] s e := by
  rintro ⟨T, hmono, h⟩
  have h23 := h 2 3 (by omega) (by omega)
  have h13 := h 1 3 (by omega) (by omega)
  rw [show Shopfully.selectRows [10, 20, 30, 40] 2 3 = [10, 20] from by decide] at h23
  rw [show Shopfully.selectRows [10, 20, 30, 40] 1 3 = ([] : List Nat) from by decide] at h13
  have h10 : (10 : Nat) ∈ rangeSelect T [10, 20, 30, 40] 2 3 := by
    rw [← h23]; simp
  unfold rangeSelect at h10 h13
  rw [List.mem_map] at h10
  obtain ⟨p, hpf, hps⟩ := h10
  rw [List.mem_filter] at hpf
  obtain ⟨hpe, hpred⟩ := hpf
  simp only [decide_eq_true_eq] at hpred
  have hfil := List.filter_eq_nil_iff.mp (List.map_eq_nil_iff.mp h13.symm) p hpe
  simp only [decide_eq_true_eq, not_and, not_le] at hfil
  have hT12 : T 1 ≤ T 2 := hmono (by omega)
  have hcontra := hfil (le_trans hT12 hpred.1)
  have := hpred.2
  omega

/-- C2 (amended): each file's by-range selection is an inclusive positional
range under that file's own translation of user row numbers: `Tools.py`
selects exactly the 0-based indices in `[start_row, end_row]` (translation
`N ↦ N`), while `Shopfully_Tool.py` selects exactly the indices in
`[start_row - 2, end_row - 2]` provided `start_row ≥ 2` (translation
`N ↦ N - 2`; for `start_row = 1` the negative slice bound wraps and the
result is not an inclusive range, see the counterexample). -/
theorem c2_amended (t : List α) (start_row end_row : Nat) :
    Tools.selectRows t start_row end_row =
      rangeSelect (fun n => (n : ℤ)) t start_row end_row ∧
    (2 ≤ start_row → 1 ≤ end_row →
      Shopfully.selectRows t start_row end_row =
        rangeSelect (fun n => (n : ℤ) - 2) t start_row end_row) := by
  constructor
  · unfold Tools.selectRows rangeSelect
    rw [show ((end_row : ℤ) + 1) = ((end_row + 1 : Nat) : ℤ) by omega,
      pySlice_nat t start_row (end_row + 1)]
    congr 1
    apply List.filter_congr
    intro p hp
    simp only [decide_eq_decide]
    omega
  · intro hs he
    unfold Shopfully.selectRows rangeSelect
    rw [show ((start_row : ℤ) - 2) = ((start_row - 2 : Nat) : ℤ) by omega,
      show ((end_row : ℤ) - 1) = ((end_row - 1 : Nat) : ℤ) by omega,
      pySlice_nat t (start_row - 2) (end_row - 1)]
    congr 1
    apply List.filter_congr
    intro p hp
    simp only [decide_eq_decide]
    omega

theorem c2_amended_witness :
    Tools.selectRows [10, 20, 30, 40] 1 2 =
      rangeSelect (fun n => (n : ℤ)) [10, 20, 30, 40] 1 2 ∧
    Shopfully.selectRows [10, 20, 30, 40] 2 3 =
      rangeSelect (fun n => (n : ℤ) - 2) [10, 20, 30, 40] 2 3 ∧
    Tools.selectRows [10, 20, 30, 40] 1 2 = [20, 30] :=
  ⟨(c2_amended [10, 20, 30, 40] 1 2).1,
   (c2_amended [10, 20, 30, 40] 2 3).2 (by decide) (by decide),
   by decide⟩

theorem tokenIn_tail (X a : Char) (t : List Char) (h : tokenIn X (a :: t) = false) :
    tokenIn X t = false := by
  match t with
  | [] => rfl
  | [b] => rfl
  | b :: c :: r =>
    rw [tokenIn] at h
    exact (Bool.or_eq_false_iff.mp h).2

theorem tokenIn_cons (X a : Char) (t : List Char) (h : tokenIn X t = true) :
    tokenIn X (a :: t) = true := by
  match t with
  | [] => simp [tokenIn] at h
  | [b] => simp [tokenIn] at h
  | b :: c :: r =>
    rw [tokenIn, h]
    simp

theorem tokenIn_append_right (X : Char) (s t : List Char) (h : tokenIn X t = true) :
    tokenIn X (s ++ t) = true := by
  induction s with
  | nil => exact h
  | cons a s ih => exact tokenIn_cons X a (s ++ t) ih

theorem replaceToken_split :
    ∀ (pre : List Char) (X : Char) (repl post : List Char), X ≠ '{' → X ≠ '}' →
      tokenIn X pre = false →
      replaceToken X repl (pre ++ '{' :: X :: '}' :: post) =
        pre ++ repl ++ replaceToken X repl post := by
  suffices H : ∀ (n : Nat) (pre : List Char), pre.length ≤ n →
      ∀ (X : Char) (repl post : List Char), X ≠ '{' → X ≠ '}' → tokenIn X pre = false →
      replaceToken X repl (pre ++ '{' :: X :: '}' :: post) =
        pre ++ repl ++ replaceToken X repl post by
    exact fun pre X repl post h1 h2 h3 => H pre.length pre (Nat.le_refl _) X repl post h1 h2 h3
  intro n
  induction n with
  | zero =>
    intro pre hlen X repl post _ _ _
    have : pre = [] := List.length_eq_zero.mp (Nat.le_zero.mp hlen)
    subst this
    rw [List.nil_append, replaceToken, if_pos ⟨rfl, rfl, rfl⟩]
    rfl
  | succ n ih =>
    intro pre hlen X repl post hX1 hX2 hpre
    match pre with
    | [] =>
      rw [List.nil_append, replaceToken, if_pos ⟨rfl, rfl, rfl⟩]
      rfl
    | [a] =>
      rw [List.cons_append, List.nil_append, replaceToken,
        if_neg (fun hc => hX2 hc.2.2), replaceToken, if_pos ⟨rfl, rfl, rfl⟩]
      rfl
    | a :: b :: rest =>
      match rest with
      | [] =>
        rw [List.cons_append, List.cons_append, List.nil_append, replaceToken,
          if_neg (fun hc => by exact absurd hc.2.2 (by decide))]
        have hb : tokenIn X [b] = false := rfl
        have hn : 1 ≤ n := by
          have h2 := hlen
          simp at h2
          omega
        have := ih [b] (by simp; omega) X repl post hX1 hX2 hb
        rw [List.cons_append, List.nil_append] at this
        rw [this]
        rfl
      | c :: rest' =>
        have hcond : ¬ (a = '{' ∧ b = X ∧ c = '}') := by
          intro hc
          rw [tokenIn] at hpre
          rw [Bool.or_eq_false_iff] at hpre
          have := hpre.1
          simp only [decide_eq_false_iff_not] at this
          exact this hc
        rw [List.cons_append, List.cons_append, List.cons_append, replaceToken,
          if_neg hcond]
        have htail : tokenIn X (b :: c :: rest') = false := tokenIn_tail X a _ hpre
        have hlen' : (b :: c :: rest').length ≤ n := by
          simp at hlen ⊢
          omega
        have := ih (b :: c :: rest') hlen' X repl post hX1 hX2 htail
        rw [List.cons_append, List.cons_append] at this
        rw [this]
        rfl

theorem replaceToken_of_tokenIn_eq_false :
    ∀ (s : List Char) (X : Char) (repl : List Char), tokenIn X s = false →
      replaceToken X repl s = s := by
  suffices H : ∀ (n : Nat) (s : List Char), s.length ≤ n →
      ∀ (X : Char) (repl : List Char), tokenIn X s = false → replaceToken X repl s = s by
    exact fun s X repl h => H s.length s (Nat.le_refl _) X repl h
  intro n
  induction n with
  | zero =>
    intro s hlen X repl _
    have : s = [] := List.length_eq_zero.mp (Nat.le_zero.mp hlen)
    subst this
    rfl
  | succ n ih =>
    intro s hlen X repl hs
    match s with
    | [] => rfl
    | [a] => rfl
    | [a, b] => rfl
    | a :: b :: c :: rest =>
      have hcond : ¬ (a = '{' ∧ b = X ∧ c = '}') := by
        intro hc
        rw [tokenIn, Bool.or_eq_false_iff] at hs
        have := hs.1
        simp only [decide_eq_false_iff_not] at this
        exact this hc
      rw [replaceToken, if_neg hcond]
      have htail : tokenIn X (b :: c :: rest) = false := tokenIn_tail X a _ hs
      have hlen' : (b :: c :: rest).length ≤ n := by
        simp at hlen ⊢
        omega
      rw [ih (b :: c :: rest) hlen' X repl htail]

theorem replaceToken_cons_ne (X a : Char) (repl t : List Char) (ha : a ≠ '\x7b') :
    replaceToken X repl (a :: t) = a :: replaceToken X repl t := by
  match t with
  | [] => rfl
  | [x] => rfl
  | x :: y :: t' => rw [replaceToken, if_neg (fun hc => ha hc.1)]

theorem tokenIn_replaceToken :
    ∀ (s : List Char) (X Y : Char) (repl : List Char), X ≠ '\x7b' → X ≠ Y → Y ≠ '\x7b' → Y ≠ '\x7d' →
      tokenIn Y s = true → tokenIn Y (replaceToken X repl s) = true := by
  suffices H : ∀ (n : Nat) (s : List Char), s.length ≤ n →
      ∀ (X Y : Char) (repl : List Char), X ≠ '\x7b' → X ≠ Y → Y ≠ '\x7b' → Y ≠ '\x7d' →
      tokenIn Y s = true → tokenIn Y (replaceToken X repl s) = true by
    exact fun s X Y repl h1 h2 h3 h4 h5 => H s.length s (Nat.le_refl _) X Y repl h1 h2 h3 h4 h5
  intro n
  induction n with
  | zero =>
    intro s hlen X Y repl _ _ _ _ hs
    have : s = [] := List.length_eq_zero.mp (Nat.le_zero.mp hlen)
    subst this
    simp [tokenIn] at hs
  | succ n ih =>
    intro s hlen X Y repl hX hXY hY1 hY2 hs
    match s with
    | [] => simp [tokenIn] at hs
    | [a] => simp [tokenIn] at hs
    | [a, b] => simp [tokenIn] at hs
    | a :: b :: c :: rest =>
      rw [tokenIn, Bool.or_eq_true] at hs
      by_cases hcond : a = '\x7b' ∧ b = X ∧ c = '\x7d'
      · -- the scanner consumes an X-token here; the Y-token lies further right
        obtain ⟨ha, hb, hc⟩ := hcond
        rw [replaceToken, if_pos ⟨ha, hb, hc⟩]
        apply tokenIn_append_right
        have hrest : tokenIn Y rest = true := by
          rcases hs with hhead | htail
          · simp only [decide_eq_true_eq] at hhead
            exact absurd (hb ▸ hhead.2.1) hXY
          · subst hb hc
            match rest with
            | [] => simp [tokenIn] at htail
            | r :: rest' =>
              rw [tokenIn, Bool.or_eq_true] at htail
              rcases htail with hh | ht
              · simp only [decide_eq_true_eq] at hh
                exact absurd hh.1 hX
              · match rest' with
                | [] => simp [tokenIn] at ht
                | r2 :: rest'' =>
                  rw [tokenIn, Bool.or_eq_true] at ht
                  rcases ht with hh2 | ht2
                  · simp only [decide_eq_true_eq] at hh2
                    exact absurd hh2.1 (by decide)
                  · exact ht2
        have hlen' : rest.length ≤ n := by
          simp at hlen
          omega
        exact ih rest hlen' X Y repl hX hXY hY1 hY2 hrest
      · rw [replaceToken, if_neg hcond]
        rcases hs with hhead | htail
        · -- the Y-token starts right here; the scanner does not consume into it
          simp only [decide_eq_true_eq] at hhead
          obtain ⟨ha, hb, hc⟩ := hhead
          subst ha hc
          rw [hb]
          rw [replaceToken_cons_ne X Y repl _ hY1,
            replaceToken_cons_ne X '\x7d' repl _ (by decide), tokenIn]
          simp
        · have htail' : tokenIn Y (replaceToken X repl (b :: c :: rest)) = true := by
            have hlen' : (b :: c :: rest).length ≤ n := by
              simp at hlen ⊢
              omega
            exact ih (b :: c :: rest) hlen' X Y repl hX hXY hY1 hY2 htail
          exact tokenIn_cons Y a _ htail'

theorem toNat_ofNat_valid (n : Nat) (h : n < 55296) : (Char.ofNat n).toNat = n := by
  simp [Char.ofNat, Nat.isValidChar, Char.toNat, Char.ofNatAux, h, UInt32.toNat,
    BitVec.toNat_ofNatLt]

theorem columnLetter_toNat (k : Nat) (h : k ≤ 25) : (columnLetter k).toNat = 65 + k := by
  unfold columnLetter
  exact toNat_ofNat_valid (65 + k) (by omega)

theorem applyRow_aux (vals : List String) :
    ∀ (k : Nat) (run : List Char) (Z : Char),
      65 + k + vals.length ≤ Z.toNat → Z.toNat ≤ 90 → tokenIn Z run = true →
      tokenIn Z ((vals.enumFrom k).foldl
        (fun acc p => replaceToken (columnLetter p.1) p.2.toList acc) run) = true := by
  induction vals with
  | nil => intro k run Z _ _ h; exact h
  | cons v vs ih =>
    intro k run Z hZ1 hZ2 hrun
    rw [List.enumFrom_cons, List.foldl_cons]
    have hk : k ≤ 25 := by simp at hZ1; omega
    have hXnat : (columnLetter k).toNat = 65 + k := columnLetter_toNat k hk
    have hX1 : columnLetter k ≠ '\x7b' := by
      intro hc
      rw [hc] at hXnat
      simp at hXnat
      omega
    have hXY : columnLetter k ≠ Z := by
      intro hc
      rw [hc] at hXnat
      simp at hZ1
      omega
    have hY1 : Z ≠ '\x7b' := by
      intro hc
      rw [hc] at hZ2
      simp at hZ2
    have hY2 : Z ≠ '\x7d' := by
      intro hc
      rw [hc] at hZ2
      simp at hZ2
    apply ih (k + 1)
    · simp at hZ1 ⊢
      omega
    · exact hZ2
    · exact tokenIn_replaceToken run (columnLetter k) Z v.toList hX1 hXY hY1 hY2 hrun

/-- C7: run-level substitution replaces each occurrence of the token of a
column's letter and preserves all surrounding text (the scan splits at the
first occurrence and continues to the right, and a token-free run is left
unchanged), while a token whose letter has no corresponding column — its
code point lies past the letters the per-column loop uses — survives the
whole per-row substitution loop literally. -/
theorem c7_placeholder_substitution :
    (∀ (X : Char) (repl pre post : List Char), X ≠ '\x7b' → X ≠ '\x7d' →
      tokenIn X pre = false →
      replaceToken X repl (pre ++ '\x7b' :: X :: '\x7d' :: post) =
        pre ++ repl ++ replaceToken X repl post) ∧
    (∀ (X : Char) (repl s : List Char), tokenIn X s = false → replaceToken X repl s = s) ∧
    (∀ (vals : List String) (run : List Char) (Z : Char),
      65 + vals.length ≤ Z.toNat → Z.toNat ≤ 90 → tokenIn Z run = true →
      tokenIn Z (applyRowRun vals run) = true) := by
  refine ⟨?_, ?_, ?_⟩
  · exact fun X repl pre post h1 h2 h3 => replaceToken_split pre X repl post h1 h2 h3
  · exact fun X repl s h => replaceToken_of_tokenIn_eq_false s X repl h
  · intro vals run Z h1 h2 h3
    unfold applyRowRun
    rw [List.enum_eq_enumFrom]
    exact applyRow_aux vals 0 run Z (by omega) h2 h3

theorem c7_placeholder_substitution_witness :
    replaceToken 'A' ("1.2 M€".toList)
        ("Revenue: ".toList ++ '\x7b' :: 'A' :: '\x7d' :: " this month".toList) =
      "Revenue: ".toList ++ "1.2 M€".toList ++
        replaceToken 'A' ("1.2 M€".toList) (" this month".toList) ∧
    String.mk (replaceToken 'A' ("1.2 M€".toList) ("Revenue: {A} this month".toList)) =
      "Revenue: 1.2 M€ this month" ∧
    tokenIn 'Z' (applyRowRun ["a", "b", "c", "d", "e"] ("x {Z} y".toList)) = true :=
  ⟨c7_placeholder_substitution.1 'A' ("1.2 M€".toList) ("Revenue: ".toList)
      (" this month".toList) (by decide) (by decide) (by decide),
   by decide,
   c7_placeholder_substitution.2.2 ["a", "b", "c", "d", "e"] ("x {Z} y".toList) 'Z'
      (by decide) (by decide) (by decide)⟩

/-- C8: when the selection matches zero rows, both batch drivers stop with
the user-facing error message before any per-row work, and the run yields
no output documents (the error carries no file list). -/
theorem c8_empty_selection
    (ppt_template : Presentation) (table : List Row) (search_option : String)
    (start_row end_row : Nat) (store_ids : String) (selected_columns : List String) :
    (Tools.df_selected table search_option start_row end_row store_ids = [] →
      Tools.process_files ppt_template table search_option start_row end_row store_ids
        selected_columns = Except.error "⚠️ No data found. Verify filters.") ∧
    (Shopfully.df_selected table search_option start_row end_row store_ids = [] →
      Shopfully.process_files ppt_template table search_option start_row end_row store_ids
        selected_columns = Except.error "⚠️ No files to generate. Check the filters.") := by
  constructor
  · intro h
    unfold Tools.process_files
    rw [h]
    rfl
  · intro h
    unfold Shopfully.process_files
    rw [h]
    rfl

theorem c8_empty_selection_witness :
    Tools.df_selected [⟨[("ID", PyValue.str "A1")], [(CellValue.str "A1", "General")]⟩]
        "store_id" 1 1 "ZZZ" = [] ∧
    Tools.process_files [[[["{A}"]]]]
        [⟨[("ID", PyValue.str "A1")], [(CellValue.str "A1", "General")]⟩]
        "store_id" 1 1 "ZZZ" ["ID"] = Except.error "⚠️ No data found. Verify filters." :=
  ⟨by decide,
   (c8_empty_selection [[[["{A}"]]]]
      [⟨[("ID", PyValue.str "A1")], [(CellValue.str "A1", "General")]⟩]
      "store_id" 1 1 "ZZZ" ["ID"]).1 (by decide)⟩

theorem shopfully_process_row_own (tmpl : Presentation) (row : Row) (index : Nat)
    (wsTable : List (List (CellValue × String))) (cols : List String)
    (h : wsTable.get? index = some row.fmtCells) :
    Shopfully.process_row tmpl row index wsTable cols = Shopfully.rowDoc tmpl row cols := by
  unfold Shopfully.process_row Shopfully.rowDoc
  simp only [h, Option.getD_some]

theorem mem_shopfully_selected (table : List Row) (search_option : String)
    (start_row end_row : Nat) (store_ids : String) (p : Nat × Row)
    (hp : p ∈ Shopfully.df_selected table search_option start_row end_row store_ids) :
    p ∈ table.enum := by
  unfold Shopfully.df_selected at hp
  split_ifs at hp with h1 h2
  · unfold Shopfully.selectRows pySlice at hp
    exact List.take_subset _ _ (List.drop_subset _ _ hp)
  · exact (List.mem_filter.mp hp).1
  · simp at hp

/-- C9 counterexample: `Tools.py` reads the worksheet cells at the
sequential batch counter, not at the selected row's own position: selecting
only the second row (`iloc[1:2]`) of a two-row table whose rows carry "X"
and "Y" produces a document named for the "Y" row whose substituted text is
"X" — the first row's value — so an output does not depend only on the
template and its own row. -/
theorem c9_counterexample :
    Tools.process_files [[[["{A}"]]]]
        [⟨[("ID", PyValue.str "X")], [(CellValue.str "X", "General")]⟩,
         ⟨[("ID", PyValue.str "Y")], [(CellValue.str "Y", "General")]⟩]
        "rows" 1 1 "" ["ID"]
      = Except.ok [("Y.pptx", [[[["X"]]]])] ∧
    ([[[["X"]]]] : Presentation) ≠ [[[["Y"]]]] :=
  ⟨rfl, by decide⟩

/-- C9 (amended): in `Shopfully_Tool.py` every output document is a pure
function of the original template and its own selected row (`rowDoc`): the
template is re-instantiated fresh per row, so substitutions never leak
across outputs.  (`Tools.py` re-instantiates the template fresh as well,
but reads the worksheet values at the batch position instead of the row's
own position — see the counterexample.) -/
theorem c9_amended (ppt_template : Presentation) (table : List Row)
    (search_option : String) (start_row end_row : Nat) (store_ids : String)
    (selected_columns : List String) (outs : List (String × Presentation))
    (h : Shopfully.process_files ppt_template table search_option start_row end_row
      store_ids selected_columns = Except.ok outs) :
    outs = (Shopfully.df_selected table search_option start_row end_row store_ids).map
      (fun p => Shopfully.rowDoc ppt_template p.2 selected_columns) := by
  unfold Shopfully.process_files at h
  by_cases hlen : (Shopfully.df_selected table search_option start_row end_row
      store_ids).length = 0
  · rw [if_pos hlen] at h
    exact absurd h (by simp)
  · rw [if_neg hlen] at h
    have houts := (Except.ok.injEq _ _).mp h
    rw [← houts]
    apply List.map_congr_left
    intro p hp
    apply shopfully_process_row_own
    have henum : p ∈ table.enum :=
      mem_shopfully_selected table search_option start_row end_row store_ids p hp
    have hget : table.get? p.1 = some p.2 := by
      have := List.mem_enum_iff_get?.mp henum
      exact this
    rw [List.get?_map, hget]
    rfl

theorem c9_amended_witness :
    [("Y.pptx", ([[[["Y"]]]] : Presentation))] =
      (Shopfully.df_selected
        [⟨[("ID", PyValue.str "X")], [(CellValue.str "X", "General")]⟩,
         ⟨[("ID", PyValue.str "Y")], [(CellValue.str "Y", "General")]⟩]
        "rows" 3 3 "").map
        (fun p => Shopfully.rowDoc [[[["{A}"]]]] p.2 ["ID"]) :=
  c9_amended [[[["{A}"]]]]
    [⟨[("ID", PyValue.str "X")], [(CellValue.str "X", "General")]⟩,
     ⟨[("ID", PyValue.str "Y")], [(CellValue.str "Y", "General")]⟩]
    "rows" 3 3 "" ["ID"] [("Y.pptx", [[[["Y"]]]])] rfl
